import Mathlib

/-!
Verification of the event-source repository (an EventSource / Server-Sent-Events
client) against its natural-language specification.

The development shallowly embeds the three relevant layers of the code:

* the line tokenizer readerToLines from the utility module: a loop that keeps a
  leftover byte buffer across chunks, scans the combined buffer for the bytes
  LF, CR and NUL, and yields the decoded bytes between cut points;
* the field parser interpretLines from the main module: a fold over decoded
  lines that accumulates event type, data and pending id and emits one message
  record at each blank-line boundary with non-empty accumulated data;
* the connection controller steps (announceConnection, the abort task, the
  reconnect announcement and reconnect attempt tasks, response validation,
  backoff computation) and the listener registry from the event module.

Bytes are modelled as natural numbers, strings as lists of characters, and the
queued tasks of the source as explicit step functions from controller state to
controller state plus the list of dispatched event records.
-/

set_option autoImplicit false
set_option maxRecDepth 8192

namespace EventSourceSpec

/-- Character list of a string literal, used to write line and field constants. -/
def chars (s : String) : List Char := s.data

/-! ## Line tokenizer (readerToLines in the utility module)

The source maintains one leftover buffer across reads.  For each chunk it
appends the chunk to the leftover, then walks the combined buffer with two
indices: the scan index and the last cut point.  At each LF, CR or NUL byte it
yields the decoded slice between the cut point and the scan index; after an LF
or CR the cut point advances past the terminator, while at a NUL the loop
breaks without advancing the cut point.  Bytes after the final cut point become
the new leftover, and the leftover is dropped when the stream ends.

Here the walk is written structurally: pending holds the slice between the
last cut point and the scan index, and the remaining byte list stands for the
buffer from the scan index on. -/

/-- Byte value of the line feed terminator. -/
def lf : Nat := 10

/-- Byte value of the carriage return terminator. -/
def cr : Nat := 13

/-- Byte value of the NUL character, also inspected by the scanning loop. -/
def nil : Nat := 0

/-- One pass of the scanning loop over a combined buffer.  Returns the yielded
lines (as byte lists, decoding happens per yielded slice) and the new leftover
buffer. -/
def scanAux : List Nat → List Nat → List (List Nat) × List Nat
  | pending, [] => ([], pending)
  | pending, b :: bs =>
    if b = lf ∨ b = cr then
      let rest := scanAux [] bs
      (pending :: rest.1, rest.2)
    else if b = nil then
      ([pending], pending ++ b :: bs)
    else
      scanAux (pending ++ [b]) bs

/-- The chunk loop of readerToLines: for each chunk, scan the leftover buffer
followed by the chunk; at the end of the stream the leftover is discarded. -/
def readerToLinesGo : List Nat → List (List Nat) → List (List Nat)
  | _, [] => []
  | lastBuffer, chunk :: rest =>
    let scanned := scanAux [] (lastBuffer ++ chunk)
    scanned.1 ++ readerToLinesGo scanned.2 rest

/-- readerToLines over a whole stream of chunks, starting from an empty
leftover buffer. -/
def readerToLines (chunks : List (List Nat)) : List (List Nat) :=
  readerToLinesGo [] chunks

/-! ## Byte decoding

The source decodes each yielded slice with the platform UTF-8 TextDecoder.
Modelled from the spec: the decoder is a platform collaborator outside the
repository; the specification allows a best-effort decode that reassembles
multi-byte sequences and never fails, so well-formed UTF-8 sequences decode to
their scalar values and ill-formed bytes decode to the replacement
character. -/

/-- The U+FFFD replacement character used for ill-formed byte sequences. -/
def replacementChar : Char := Char.ofNat 0xFFFD

/-- Whether a byte is a UTF-8 continuation byte. -/
def isCont (b : Nat) : Bool := 0x80 ≤ b && b < 0xC0

/-- Fuelled UTF-8 decoding loop; the fuel only bounds the recursion and is
instantiated with the length of the byte list. -/
def utf8DecodeAux : Nat → List Nat → List Char
  | 0, _ => []
  | _, [] => []
  | fuel + 1, b :: rest =>
    if b < 0x80 then
      Char.ofNat b :: utf8DecodeAux fuel rest
    else if 0xC2 ≤ b && b ≤ 0xDF then
      match rest with
      | c1 :: rest2 =>
        if isCont c1 then
          Char.ofNat ((b - 0xC0) * 0x40 + (c1 - 0x80)) :: utf8DecodeAux fuel rest2
        else
          replacementChar :: utf8DecodeAux fuel rest
      | [] => [replacementChar]
    else if 0xE0 ≤ b && b ≤ 0xEF then
      match rest with
      | c1 :: c2 :: rest2 =>
        let cp := (b - 0xE0) * 0x1000 + (c1 - 0x80) * 0x40 + (c2 - 0x80)
        if isCont c1 && isCont c2 && 0x800 ≤ cp && ¬ (0xD800 ≤ cp && cp ≤ 0xDFFF) then
          Char.ofNat cp :: utf8DecodeAux fuel rest2
        else
          replacementChar :: utf8DecodeAux fuel rest
      | _ => [replacementChar]
    else if 0xF0 ≤ b && b ≤ 0xF4 then
      match rest with
      | c1 :: c2 :: c3 :: rest2 =>
        let cp := (b - 0xF0) * 0x40000 + (c1 - 0x80) * 0x1000 + (c2 - 0x80) * 0x40 + (c3 - 0x80)
        if isCont c1 && isCont c2 && isCont c3 && 0x10000 ≤ cp && cp ≤ 0x10FFFF then
          Char.ofNat cp :: utf8DecodeAux fuel rest2
        else
          replacementChar :: utf8DecodeAux fuel rest
      | _ => [replacementChar]
    else
      replacementChar :: utf8DecodeAux fuel rest

/-- Best-effort UTF-8 decoding of a byte list. -/
def utf8Decode (bs : List Nat) : List Char :=
  utf8DecodeAux bs.length bs

/-- ASCII-compatible encoding of a string into bytes, used to write concrete
byte streams in theorems. -/
def strBytes (s : String) : List Nat := s.data.map Char.toNat

/-! ## JavaScript numbers (IEEE-754 binary64)

The reconnection time and the backoff computation live in JavaScript number
arithmetic, that is IEEE-754 binary64 with round to nearest, ties to even.
The paths the source exercises (parseInt of a digit run, division and
multiplication by the literal 1000, Math.pow with the fixed exponent one,
Math.abs) only ever produce nonnegative values and never NaN, so a number is
modelled as zero or a positive finite value written canonically as
mantissa times two to the scale — with the mantissa in the binary64 range —
or positive infinity.  Every arithmetic step rounds its exact result with
roundPos, which implements binary64 rounding exactly over the integers. -/

/-- A JavaScript number as produced on the modelled paths: a nonnegative
finite binary64 value mantissa times two to the scale, or positive
infinity. -/
inductive JsNumber where
  | finite (mantissa : Nat) (scale : Int)
  | posInf
  deriving DecidableEq, Repr

/-- Fuelled base-two logarithm used by the rounding routine; the fuel only
bounds the recursion and the initial call supplies a sufficient amount. -/
def log2Fuel : Nat → Nat → Nat
  | 0, _ => 0
  | fuel + 1, n => if 2 ≤ n then log2Fuel fuel (n / 2) + 1 else 0

/-- The base-two logarithm of a positive natural number, rounded down. -/
def natLog2 (n : Nat) : Nat := log2Fuel n n

/-- Whether two to the integer power e is at most the fraction a over b, for
positive naturals a and b, decided by cross multiplication. -/
def twoPowLe (e : Int) (a b : Nat) : Bool :=
  if 0 ≤ e then b * 2 ^ e.toNat ≤ a else b ≤ a * 2 ^ (-e).toNat

/-- The binary exponent of the fraction a over b: the greatest e with two to
the e at most a over b, for positive a and b. -/
def fracExp (a b : Nat) : Int :=
  let e0 : Int := (natLog2 a : Int) - (natLog2 b : Int)
  if twoPowLe e0 a b then e0 else e0 - 1

/-- Round the nonnegative rational a over b (b positive) to the nearest
binary64 value, ties to even: scale the value into the mantissa range, round
the scaled value to an integer, propagate a carry out of the mantissa range,
and overflow to infinity at two to the 1024. -/
def roundPos (a b : Nat) : JsNumber :=
  if a = 0 then JsNumber.finite 0 (-1074)
  else
    let scale : Int := max (fracExp a b - 52) (-1074)
    let num := if 0 ≤ scale then a else a * 2 ^ (-scale).toNat
    let den := if 0 ≤ scale then b * 2 ^ scale.toNat else b
    let q := num / den
    let r := num % den
    let n := if 2 * r < den then q else if den < 2 * r then q + 1
      else if q % 2 = 0 then q else q + 1
    let n2 := if n = 2 ^ 53 then 2 ^ 52 else n
    let scale2 := if n = 2 ^ 53 then scale + 1 else scale
    if 0 ≤ scale2 ∧ 2 ^ 1024 ≤ n2 * 2 ^ scale2.toNat then JsNumber.posInf
    else JsNumber.finite n2 scale2

/-- The JavaScript number holding a mathematical natural number: its value
rounded to the nearest binary64 (exact below two to the 53). -/
def jsOfNat (n : Nat) : JsNumber := roundPos n 1

/-- The exact value of a finite number as a fraction of naturals. -/
def finiteFrac (m : Nat) (s : Int) : Nat × Nat :=
  if 0 ≤ s then (m * 2 ^ s.toNat, 1) else (m, 2 ^ (-s).toNat)

/-- Binary64 division by the literal 1000: the correctly rounded exact
quotient; infinity divided by a finite positive number stays infinite. -/
def divBy1000 : JsNumber → JsNumber
  | JsNumber.finite m s => roundPos (finiteFrac m s).1 ((finiteFrac m s).2 * 1000)
  | JsNumber.posInf => JsNumber.posInf

/-- Binary64 multiplication by the literal 1000: the correctly rounded exact
product; infinity times a finite positive number stays infinite. -/
def mulBy1000 : JsNumber → JsNumber
  | JsNumber.finite m s => roundPos ((finiteFrac m s).1 * 1000) (finiteFrac m s).2
  | JsNumber.posInf => JsNumber.posInf

/-- Math.abs on the numbers of the modelled paths, which are all
nonnegative, is the identity. -/
def jsAbs (x : JsNumber) : JsNumber := x

/-! ## Event field parser (interpretLines in the main module)

The parser folds over the decoded lines with four mutable locals of the
source: the pending event id (undefined initially and, notably, never reset at
an event boundary), the pending event type, the accumulated data, plus the
session fields lastEventID and reconnectionTime that the id and retry fields
mutate.  A blank line is an event boundary: with an empty data accumulator the
event type is cleared and nothing is emitted; otherwise one trailing line feed
is stripped from the data, a truthy (defined and non-empty) pending id is
adopted into the sticky lastEventID, and a message record is produced. -/

/-- The NUL character, which disqualifies an id field value. -/
def nulChar : Char := Char.ofNat 0

/-- The line feed character appended after every data field value. -/
def lfChar : Char := Char.ofNat 10

/-- Parser and session state threaded through interpretLines. -/
structure ParserState where
  eventID : Option (List Char)
  eventType : List Char
  data : List Char
  lastEventID : List Char
  reconnectionTime : JsNumber
  deriving DecidableEq, Repr

/-- The state of a freshly constructed EventSource: no pending id, empty type
and data accumulators, empty sticky lastEventID, and the reconnection time
holding the double value of the default 1000. -/
def initState : ParserState :=
  { eventID := none, eventType := [], data := [], lastEventID := [],
    reconnectionTime := jsOfNat 1000 }

/-- A dispatched message record: the fields of the MessageEvent the parser
constructs at an event boundary. -/
structure MessageRec where
  type : List Char
  data : List Char
  origin : List Char
  lastEventID : List Char
  deriving DecidableEq, Repr

/-- The MessageEvent constructor of the event module: an empty event type is
replaced by the reserved name message. -/
def mkMessageEvent (eventType data origin lastEventID : List Char) : MessageRec :=
  { type := if eventType = [] then chars "message" else eventType
    data := data
    origin := origin
    lastEventID := lastEventID }

/-- How one line is classified by the per-line rules of interpretLines. -/
inductive LineAction where
  | boundary
  | comment
  | fieldLine (field value : List Char)
  deriving DecidableEq, Repr

/-- Strip one leading space from a field value. -/
def stripLeadingSpace : List Char → List Char
  | ' ' :: rest => rest
  | l => l

/-- Classify a line: blank lines are boundaries, a colon at position zero is a
comment, otherwise the line splits at the first colon into field and value
(the whole line is the field when no colon occurs), stripping one leading
space from the value. -/
def classifyLine (line : List Char) : LineAction :=
  if line = [] then .boundary
  else
    match line.findIdx? (fun c => c == ':') with
    | some 0 => .comment
    | some (n + 1) => .fieldLine (line.take (n + 1)) (stripLeadingSpace (line.drop (n + 2)))
    | none => .fieldLine line []

/-- The mathematical value of a list of ASCII digits. -/
def digitsToNat (l : List Char) : Nat :=
  l.foldl (fun acc c => acc * 10 + (c.toNat - '0'.toNat)) 0

/-- parseInt on an all-digit value: the mathematical value of the digit run
rounded to the nearest binary64 number (ties to even, exact below two to
the 53, infinity on overflow). -/
def parseIntDigits (l : List Char) : JsNumber := jsOfNat (digitsToNat l)

/-- Handling of a field and value pair: event sets the pending type, data
appends the value and a line feed to the accumulator, id sets the pending id
unless the value contains NUL, retry sets the reconnection time to the
parseInt of the value when it is a non-empty run of ASCII digits, and unknown
fields are ignored. -/
def handleField (s : ParserState) (field value : List Char) : ParserState :=
  if field = chars "event" then { s with eventType := value }
  else if field = chars "data" then { s with data := s.data ++ value ++ [lfChar] }
  else if field = chars "id" then
    if nulChar ∈ value then s else { s with eventID := some value }
  else if field = chars "retry" then
    if value ≠ [] ∧ value.all Char.isDigit then { s with reconnectionTime := parseIntDigits value }
    else s
  else s

/-- Strip exactly one trailing line feed from the accumulated data. -/
def stripTrailingLf (data : List Char) : List Char :=
  if data.getLast? = some lfChar then data.dropLast else data

/-- One step of the line loop of interpretLines: returns the next state and
the message record emitted at a boundary, if any. -/
def stepLine (origin : List Char) (s : ParserState) (line : List Char) :
    ParserState × Option MessageRec :=
  match classifyLine line with
  | .boundary =>
    if s.data = [] then ({ s with eventType := [] }, none)
    else
      let data := stripTrailingLf s.data
      let lastEventID :=
        match s.eventID with
        | some v => if v ≠ [] then v else s.lastEventID
        | none => s.lastEventID
      let event := mkMessageEvent s.eventType data origin lastEventID
      ({ s with data := [], eventType := [], lastEventID := lastEventID }, some event)
  | .comment => (s, none)
  | .fieldLine field value => (handleField s field value, none)

/-- The line loop of interpretLines: fold stepLine over the decoded lines,
collecting the emitted message records in order. -/
def interpretLines (origin : List Char) : ParserState → List (List Char) →
    ParserState × List MessageRec
  | s, [] => (s, [])
  | s, line :: rest =>
    let step := stepLine origin s line
    let next := interpretLines origin step.1 rest
    (next.1, step.2.toList ++ next.2)

/-- One connection worth of the processing pipeline: tokenize the byte chunks
into lines, decode each line, and fold the field parser over them. -/
def runConnection (chunks : List (List Nat)) (origin : List Char) (s : ParserState) :
    ParserState × List MessageRec :=
  interpretLines origin s ((readerToLines chunks).map utf8Decode)

/-- The retry amount a line carries: the parsed number when the line is a
retry field line whose value is a non-empty run of ASCII digits. -/
def retryValue (line : List Char) : Option JsNumber :=
  match classifyLine line with
  | .fieldLine field value =>
    if field = chars "retry" ∧ value ≠ [] ∧ value.all Char.isDigit then
      some (parseIntDigits value)
    else none
  | _ => none

/-! ## Connection controller

The ready states and the queued tasks of the main module.  Each closure the
source queues (via queueTask or the resolved promise of queueMicrotask)
becomes a step function from controller state to controller state together
with the list of event records it hands to dispatchEvent. -/

/-- The connection ready states, keeping the spelling of the source. -/
inductive ReadyState where
  | CONNETING
  | OPEN
  | CLOSED
  deriving DecidableEq, Repr

/-- The reason carried by a dispatched error notification, mirroring the
error values the source constructs. -/
inductive ErrReason where
  | connectionClosed
  | fromStatus (status : Nat) (statusText : List Char)
  | badContentType (contentType : Option (List Char))
  | reconnecting
  deriving DecidableEq, Repr

/-- An event record handed to dispatchEvent. -/
inductive EventRecord where
  | openEv
  | errorEv (reason : ErrReason)
  | messageEv (m : MessageRec)
  deriving DecidableEq, Repr

/-- Controller state: the ready state and whether the abort controller has
been triggered (cancelling any in-flight request). -/
structure CtrlState where
  readyState : ReadyState
  aborted : Bool
  deriving DecidableEq, Repr

/-- The announceConnection task: promote to OPEN unless already CLOSED, then
dispatch an Open event; the dispatch itself is not guarded. -/
def announceConnection (s : CtrlState) : CtrlState × List EventRecord :=
  (if s.readyState ≠ ReadyState.CLOSED then { s with readyState := ReadyState.OPEN } else s,
   [EventRecord.openEv])

/-- The task queued by the private abort method: trigger the abort controller,
dispatch an Error notification only when the state was not already CLOSED, and
set the state to CLOSED. -/
def abortTask (s : CtrlState) (reason : ErrReason) : CtrlState × List EventRecord :=
  ({ s with aborted := true, readyState := ReadyState.CLOSED },
   if s.readyState ≠ ReadyState.CLOSED then [EventRecord.errorEv reason] else [])

/-- The reconnect announcement microtask: when the state became CLOSED it
requests an abort and does nothing else; otherwise it moves the state back to
CONNETING and dispatches a reconnecting Error notification.  The third
component records whether the abort method was invoked. -/
def reconnectAnnouncement (s : CtrlState) : CtrlState × List EventRecord × Bool :=
  if s.readyState = ReadyState.CLOSED then (s, [], true)
  else ({ s with readyState := ReadyState.CONNETING }, [EventRecord.errorEv ErrReason.reconnecting], false)

/-- The queued reconnect attempt: the connect method is invoked exactly when
the state is still CONNETING. -/
def reconnectAttemptTask (s : CtrlState) : Bool :=
  s.readyState = ReadyState.CONNETING

/-- The fixed backoff exponent of the source; it is initialised to one and no
code path ever modifies it. -/
def backoffCounter : Nat := 1

/-- Math.pow as the backoff computation invokes it: the exponent passed is
always the constant backoffCounter, whose value is one, and a binary64 value
raised to the power one is returned unchanged. -/
def powBackoffCounter (x : JsNumber) : JsNumber := x

/-- The backoff computation of the source, step by step in binary64
arithmetic: divide the reconnection time by 1000, raise to the backoff
exponent, multiply by 1000, and take the absolute value (the identity on
these nonnegative values). -/
def reconnectBackoff (reconnectionTime : JsNumber) : JsNumber :=
  jsAbs (mulBy1000 (powBackoffCounter (divBy1000 reconnectionTime)))

/-- The response metadata the validation step inspects. -/
structure Resp where
  status : Nat
  statusText : List Char
  ok : Bool
  contentType : Option (List Char)
  deriving DecidableEq, Repr

/-- Outcome of response validation: a 204 status aborts and rejects, any
other non-200 status or a wrong content type rejects, and otherwise the
response is accepted. -/
inductive ValidationOutcome where
  | rejected204
  | rejectedStatus
  | rejectedContentType
  | valid
  deriving DecidableEq, Repr

/-- The rejectInvalidResponse checks, in source order: status 204 (which also
invokes the abort method before rejecting), then not-ok or non-200 status,
then a content type other than text/event-stream. -/
def rejectInvalidResponse (r : Resp) : ValidationOutcome :=
  if r.status = 204 then ValidationOutcome.rejected204
  else if r.ok = false ∨ r.status ≠ 200 then ValidationOutcome.rejectedStatus
  else if r.contentType ≠ some (chars "text/event-stream") then ValidationOutcome.rejectedContentType
  else ValidationOutcome.valid

/-- Result of the connect flow up to the point where either the queued abort
tasks have run or the response was accepted. -/
structure ConnectResult where
  state : CtrlState
  events : List EventRecord
  accepted : Bool
  reconnectReached : Bool
  deriving DecidableEq, Repr

/-- The connect flow on a response: on a 204 the validation itself queues an
argument-less abort and the surrounding catch queues a second abort carrying
the status error, then connect returns without reconnecting; on any other
rejection only the catch abort runs; on success the Open announcement is
queued, the body is processed and the reconnect path is reached afterwards.
The queued tasks run in order, so they are composed sequentially. -/
def connectStep (s : CtrlState) (r : Resp) : ConnectResult :=
  match rejectInvalidResponse r with
  | ValidationOutcome.rejected204 =>
    let first := abortTask s ErrReason.connectionClosed
    let second := abortTask first.1 (ErrReason.fromStatus r.status r.statusText)
    { state := second.1, events := first.2 ++ second.2, accepted := false, reconnectReached := false }
  | ValidationOutcome.rejectedStatus =>
    let first := abortTask s (ErrReason.fromStatus r.status r.statusText)
    { state := first.1, events := first.2, accepted := false, reconnectReached := false }
  | ValidationOutcome.rejectedContentType =>
    let first := abortTask s (ErrReason.badContentType r.contentType)
    { state := first.1, events := first.2, accepted := false, reconnectReached := false }
  | ValidationOutcome.valid =>
    { state := s, events := [], accepted := true, reconnectReached := true }

/-! ## Event dispatcher (the event module)

The listener registry is a record from event type names to ordered listener
lists; listeners themselves are identified by an abstract type with decidable
equality standing for object identity. -/

/-- The listener registry of the EventTarget class: an association list from
event type names to ordered listener lists. -/
structure EventTarget (L : Type) where
  listeners : List (List Char × List L)
  deriving DecidableEq, Repr

/-- The empty registry. -/
def EventTarget.empty (L : Type) : EventTarget L := ⟨[]⟩

/-- Lookup of the first entry stored under a type name (keys are unique in the
source record, so this is the record access of the listeners object). -/
def lookupListeners {L : Type} : List (List Char × List L) → List Char → List L
  | [], _ => []
  | e :: rest, ty => if e.1 = ty then e.2 else lookupListeners rest ty

/-- The ordered listener list stored for a type name, empty when absent. -/
def EventTarget.getListeners {L : Type} (t : EventTarget L) (ty : List Char) : List L :=
  lookupListeners t.listeners ty

/-- addEventListener: append the listener to the list for the type, creating
the entry when absent. -/
def EventTarget.addEventListener {L : Type} [DecidableEq L]
    (t : EventTarget L) (ty : List Char) (l : L) : EventTarget L :=
  if t.listeners.any (fun e => decide (e.1 = ty)) then
    ⟨t.listeners.map (fun e => if e.1 = ty then (e.1, e.2 ++ [l]) else e)⟩
  else
    ⟨t.listeners ++ [(ty, [l])]⟩

/-- removeEventListener: replace the list for the type by its filtering that
keeps the listeners different from the argument; a missing entry becomes an
empty one. -/
def EventTarget.removeEventListener {L : Type} [DecidableEq L]
    (t : EventTarget L) (ty : List Char) (l : L) : EventTarget L :=
  if t.listeners.any (fun e => decide (e.1 = ty)) then
    ⟨t.listeners.map (fun e => if e.1 = ty then (e.1, e.2.filter (fun x => decide (x ≠ l))) else e)⟩
  else
    ⟨t.listeners ++ [(ty, [])]⟩

/-- dispatchEvent of the EventTarget class invokes, in order, the listeners
stored for the type of the event; its boolean result is always false.  The
model returns the ordered list of invoked listeners. -/
def EventTarget.dispatchInvocations {L : Type} (t : EventTarget L) (ty : List Char) : List L :=
  t.getListeners ty

/-- The listener surface of an EventSource: one default handler slot and one
registry per reserved kind; addEventListener routes open and error to their
registries and every other type name to the message registry. -/
structure SourceListeners (L : Type) where
  onopen : Option L
  onerror : Option L
  onmessage : Option L
  openTarget : EventTarget L
  errorTarget : EventTarget L
  messageTarget : EventTarget L
  deriving Repr

/-- dispatchEvent of the EventSource class: route on the variant of the
record; the default slot for the variant is invoked first (when set), then
the registry for the record type name.  Open and Error events carry the fixed
type names open and error; a message record carries its own type name. -/
def dispatchEventSrc {L : Type} (tg : SourceListeners L) : EventRecord → List L
  | EventRecord.openEv => tg.onopen.toList ++ tg.openTarget.dispatchInvocations (chars "open")
  | EventRecord.errorEv _ => tg.onerror.toList ++ tg.errorTarget.dispatchInvocations (chars "error")
  | EventRecord.messageEv m => tg.onmessage.toList ++ tg.messageTarget.dispatchInvocations m.type

/-- The deferred dispatch task queued for each parsed message record: it
checks the ready state first and dispatches nothing when the connection is
CLOSED. -/
def queuedMessageTask {L : Type} (st : ReadyState) (tg : SourceListeners L) (m : MessageRec) :
    List L :=
  if st = ReadyState.CLOSED then [] else dispatchEventSrc tg (EventRecord.messageEv m)

/-! ## Reference splitting of a byte sequence into lines

Used to characterise the tokenizer: splitTerm cuts a byte sequence at every
LF and CR byte, producing one segment more than there are terminators; the
lines of a terminated stream are all segments but the final one. -/

/-- Split a byte sequence at every LF and CR byte; the terminators are not
part of any segment and n terminators produce n plus one segments. -/
def splitTerm : List Nat → List (List Nat)
  | [] => [[]]
  | b :: bs =>
    if b = lf ∨ b = cr then [] :: splitTerm bs
    else
      match splitTerm bs with
      | [] => [[b]]
      | s :: rest => (b :: s) :: rest

/-- Prepend bytes onto the first segment of a segment list. -/
def consHead (p : List Nat) : List (List Nat) → List (List Nat)
  | [] => [p]
  | s :: rest => (p ++ s) :: rest

/-- The final segment of a segment list, empty for the empty list. -/
def lastSeg : List (List Nat) → List Nat
  | [] => []
  | [s] => s
  | _ :: s :: rest => lastSeg (s :: rest)

/-- A byte list free of NUL bytes. -/
@[reducible] def NulFree (l : List Nat) : Prop := ∀ b ∈ l, b ≠ nil

/-- A byte list free of the LF and CR terminator bytes. -/
@[reducible] def TermFree (l : List Nat) : Prop := ∀ b ∈ l, ¬(b = lf ∨ b = cr)

/-- The pending event id, when set, is free of NUL characters; an invariant
of the parser state maintained by the guarded id field handling. -/
def PendingIdNulFree (s : ParserState) : Prop :=
  ∀ v, s.eventID = some v → nulChar ∉ v

/-! ## Tokenizer lemmas -/

theorem splitTerm_ne_nil (bs : List Nat) : splitTerm bs ≠ [] := by
  cases bs with
  | nil => simp [splitTerm]
  | cons b bs =>
    simp only [splitTerm]
    split
    · simp
    · split <;> simp_all

theorem consHead_ne_nil (p : List Nat) (l : List (List Nat)) : consHead p l ≠ [] := by
  cases l <;> simp [consHead]

theorem consHead_nil_eq {l : List (List Nat)} (h : l ≠ []) : consHead [] l = l := by
  cases l with
  | nil => exact absurd rfl h
  | cons s rest => simp [consHead]

theorem consHead_consHead (p q : List Nat) (l : List (List Nat)) :
    consHead p (consHead q l) = consHead (p ++ q) l := by
  cases l <;> simp [consHead, List.append_assoc]

theorem lastSeg_cons {l : List (List Nat)} (s : List Nat) (h : l ≠ []) :
    lastSeg (s :: l) = lastSeg l := by
  cases l with
  | nil => exact absurd rfl h
  | cons a rest => rfl

theorem splitTerm_cons_nonterm {b : Nat} (bs : List Nat) (h : ¬(b = lf ∨ b = cr)) :
    splitTerm (b :: bs) = consHead [b] (splitTerm bs) := by
  simp only [splitTerm, if_neg h]
  cases hs : splitTerm bs with
  | nil => exact absurd hs (splitTerm_ne_nil bs)
  | cons s rest => simp [consHead]

theorem scanAux_eq (bs : List Nat) (hn : NulFree bs) (pending : List Nat) :
    scanAux pending bs =
      ((consHead pending (splitTerm bs)).dropLast, lastSeg (consHead pending (splitTerm bs))) := by
  induction bs generalizing pending with
  | nil => simp [scanAux, splitTerm, consHead, lastSeg]
  | cons b bs ih =>
    have hb : b ≠ nil := hn b (by simp)
    have hn' : NulFree bs := fun x hx => hn x (by simp [hx])
    by_cases ht : b = lf ∨ b = cr
    · have hsne := splitTerm_ne_nil bs
      simp only [scanAux, if_pos ht]
      rw [ih hn' []]
      rw [consHead_nil_eq hsne]
      simp only [splitTerm, if_pos ht]
      cases hs : splitTerm bs with
      | nil => exact absurd hs hsne
      | cons s rest =>
        simp [consHead, List.dropLast_cons_of_ne_nil, lastSeg_cons]
    · simp only [scanAux, if_neg ht, if_neg hb]
      rw [ih hn' (pending ++ [b])]
      rw [splitTerm_cons_nonterm bs ht, consHead_consHead]

theorem splitTerm_termFree {a : List Nat} (h : TermFree a) : splitTerm a = [a] := by
  induction a with
  | nil => rfl
  | cons b bs ih =>
    have hb := h b (by simp)
    have h' : TermFree bs := fun x hx => h x (by simp [hx])
    rw [splitTerm_cons_nonterm bs hb, ih h']
    simp [consHead]

theorem mem_lastSeg_splitTerm {bs : List Nat} {x : Nat} (h : x ∈ lastSeg (splitTerm bs)) :
    x ∈ bs ∧ ¬(x = lf ∨ x = cr) := by
  induction bs with
  | nil => simp [splitTerm, lastSeg] at h
  | cons b bs ih =>
    by_cases ht : b = lf ∨ b = cr
    · simp only [splitTerm, if_pos ht] at h
      rw [lastSeg_cons _ (splitTerm_ne_nil bs)] at h
      have hr := ih h
      exact ⟨by simp [hr.1], hr.2⟩
    · rw [splitTerm_cons_nonterm bs ht] at h
      cases hs : splitTerm bs with
      | nil => exact absurd hs (splitTerm_ne_nil bs)
      | cons s rest =>
        rw [hs] at h
        cases rest with
        | nil =>
          have hbs : x = b ∨ x ∈ s := by simpa [consHead, lastSeg] using h
          rcases hbs with hx | hx
          · subst hx
            exact ⟨by simp, ht⟩
          · have hx' : x ∈ lastSeg (splitTerm bs) := by
              rw [hs]; simpa [lastSeg] using hx
            have hr := ih hx'
            exact ⟨by simp [hr.1], hr.2⟩
        | cons r rs =>
          simp only [consHead] at h
          rw [lastSeg_cons _ (by simp)] at h
          have hx' : x ∈ lastSeg (splitTerm bs) := by
            rw [hs, lastSeg_cons _ (by simp)]; exact h
          have hr := ih hx'
          exact ⟨by simp [hr.1], hr.2⟩

theorem splitTerm_append (x y : List Nat) :
    splitTerm (x ++ y) =
      (splitTerm x).dropLast ++ consHead (lastSeg (splitTerm x)) (splitTerm y) := by
  induction x with
  | nil =>
    simp [splitTerm, lastSeg, consHead_nil_eq (splitTerm_ne_nil y)]
  | cons b x ih =>
    by_cases ht : b = lf ∨ b = cr
    · have hx := splitTerm_ne_nil x
      have h1 : splitTerm ((b :: x) ++ y) = [] :: splitTerm (x ++ y) := by
        simp only [List.cons_append, splitTerm, if_pos ht, List.append_eq]
      have h2 : splitTerm (b :: x) = [] :: splitTerm x := by
        simp only [splitTerm, if_pos ht]
      rw [h1, h2, ih, List.dropLast_cons_of_ne_nil hx, lastSeg_cons _ hx]
      simp
    · rw [List.cons_append, splitTerm_cons_nonterm _ ht, splitTerm_cons_nonterm _ ht, ih]
      cases hs : splitTerm x with
      | nil => exact absurd hs (splitTerm_ne_nil x)
      | cons s rest =>
        cases rest with
        | nil =>
          have hc : consHead [b] [s] = [b :: s] := rfl
          rw [hc]
          simp only [List.dropLast_single, List.nil_append, lastSeg, consHead_consHead]
          simp
        | cons r rs =>
          have hc : consHead [b] (s :: r :: rs) = (b :: s) :: r :: rs := rfl
          rw [hc]
          rw [lastSeg_cons s (by simp), lastSeg_cons (b :: s) (by simp)]
          simp [consHead, List.dropLast_cons₂]

theorem readerToLinesGo_eq (chunks : List (List Nat)) :
    ∀ lb : List Nat, NulFree lb → NulFree chunks.flatten → TermFree lb →
      readerToLinesGo lb chunks = (splitTerm (lb ++ chunks.flatten)).dropLast := by
  induction chunks with
  | nil =>
    intro lb _ _ htf
    simp [readerToLinesGo, splitTerm_termFree htf]
  | cons c cs ih =>
    intro lb hnl hnj htf
    have hnc : NulFree c := fun x hx => hnj x (by simp [hx])
    have hncs : NulFree cs.flatten := fun x hx => hnj x (by simp [hx])
    have hnbuf : NulFree (lb ++ c) := by
      intro x hx
      rcases List.mem_append.mp hx with h | h
      · exact hnl x h
      · exact hnc x h
    simp only [readerToLinesGo]
    rw [scanAux_eq (lb ++ c) hnbuf []]
    rw [consHead_nil_eq (splitTerm_ne_nil _)]
    have hlfree : NulFree (lastSeg (splitTerm (lb ++ c))) := by
      intro x hx
      exact hnbuf x (mem_lastSeg_splitTerm hx).1
    have htfB : TermFree (lastSeg (splitTerm (lb ++ c))) := by
      intro x hx
      exact (mem_lastSeg_splitTerm hx).2
    rw [ih (lastSeg (splitTerm (lb ++ c))) hlfree hncs htfB]
    have hjoin : lb ++ (c :: cs).flatten = (lb ++ c) ++ cs.flatten := by
      simp [List.append_assoc]
    rw [hjoin, splitTerm_append (lb ++ c) cs.flatten]
    rw [List.dropLast_append_of_ne_nil _ (consHead_ne_nil _ _)]
    rw [splitTerm_append (lastSeg (splitTerm (lb ++ c))) cs.flatten,
      splitTerm_termFree htfB]
    simp [lastSeg]

/-- Characterization of the tokenizer on NUL-free streams: the yielded lines
are all segments between LF and CR terminators except the final, unterminated
one. -/
theorem readerToLines_eq_splitTerm {chunks : List (List Nat)}
    (h : NulFree chunks.flatten) :
    readerToLines chunks = (splitTerm chunks.flatten).dropLast := by
  have := readerToLinesGo_eq chunks [] (by intro x hx; simp at hx) h (by intro x hx; simp at hx)
  simpa [readerToLines] using this

/-! ## Parser lemmas -/

theorem classifyLine_boundary {line : List Char} (h : classifyLine line = LineAction.boundary) :
    line = [] := by
  unfold classifyLine at h
  by_cases h1 : line = []
  · exact h1
  · rw [if_neg h1] at h
    rcases hf : line.findIdx? (fun c => c == ':') with _ | n
    · rw [hf] at h
      exact absurd h (by simp)
    · cases n with
      | zero => rw [hf] at h; exact absurd h (by simp)
      | succ n => rw [hf] at h; exact absurd h (by simp)

theorem handleField_lastEventID (s : ParserState) (field value : List Char) :
    (handleField s field value).lastEventID = s.lastEventID := by
  unfold handleField
  split_ifs <;> rfl

theorem handleField_data_of_ne {s : ParserState} {field value : List Char}
    (h : field ≠ chars "data") : (handleField s field value).data = s.data := by
  unfold handleField
  split_ifs <;> rfl

theorem handleField_pendingIdNulFree {s : ParserState} {field value : List Char}
    (h : PendingIdNulFree s) : PendingIdNulFree (handleField s field value) := by
  intro v hv
  unfold handleField at hv
  split_ifs at hv with h1 h2 h3 h4 h5 h6
  · exact h v hv
  · exact h v hv
  · exact h v hv
  · have hv2 : some value = some v := hv
    obtain rfl : value = v := by injection hv2
    exact h4
  · exact h v hv
  · exact h v hv
  · exact h v hv

theorem handleField_reconnectionTime (s : ParserState) (field value : List Char) :
    (handleField s field value).reconnectionTime =
      if field = chars "retry" ∧ value ≠ [] ∧ value.all Char.isDigit then parseIntDigits value
      else s.reconnectionTime := by
  by_cases hr : field = chars "retry" ∧ value ≠ [] ∧ value.all Char.isDigit
  · rw [if_pos hr]
    obtain ⟨hf, hv⟩ := hr
    subst hf
    unfold handleField
    rw [if_neg (by decide), if_neg (by decide), if_neg (by decide), if_pos rfl, if_pos hv]
  · rw [if_neg hr]
    unfold handleField
    split_ifs with h1 h2 h3 h4 h5 h6 <;> try rfl
    exact absurd ⟨h5, h6⟩ hr

theorem stepLine_pendingIdNulFree (origin : List Char) (s : ParserState) (line : List Char)
    (h : PendingIdNulFree s) : PendingIdNulFree (stepLine origin s line).1 := by
  unfold stepLine
  cases classifyLine line with
  | boundary =>
    by_cases hd : s.data = []
    · rw [if_pos hd]
      intro v hv
      exact h v hv
    · rw [if_neg hd]
      intro v hv
      exact h v hv
  | comment => exact h
  | fieldLine field value => exact handleField_pendingIdNulFree h

theorem stepLine_lastEventID_cases (origin : List Char) (s : ParserState) (line : List Char) :
    (stepLine origin s line).1.lastEventID = s.lastEventID ∨
      (∃ v, s.eventID = some v ∧ v ≠ [] ∧ (stepLine origin s line).1.lastEventID = v ∧
        line = [] ∧ s.data ≠ []) := by
  cases hc : classifyLine line with
  | boundary =>
    have hline : line = [] := classifyLine_boundary hc
    by_cases hd : s.data = []
    · left
      simp [stepLine, hc, hd]
    · cases he : s.eventID with
      | none =>
        left
        simp [stepLine, hc, hd, he]
      | some v =>
        by_cases hv : v = []
        · left
          simp [stepLine, hc, hd, he, hv]
        · right
          exact ⟨v, rfl, hv, by simp [stepLine, hc, hd, he, hv], hline, hd⟩
  | comment =>
    left
    simp [stepLine, hc]
  | fieldLine field value =>
    left
    simp [stepLine, hc, handleField_lastEventID]

theorem stepLine_reconnectionTime (origin : List Char) (s : ParserState) (line : List Char) :
    (stepLine origin s line).1.reconnectionTime = (retryValue line).getD s.reconnectionTime := by
  cases hc : classifyLine line with
  | boundary =>
    by_cases hd : s.data = [] <;> simp [stepLine, retryValue, hc, hd]
  | comment => simp [stepLine, retryValue, hc]
  | fieldLine field value =>
    simp only [stepLine, retryValue, hc, handleField_reconnectionTime]
    split_ifs <;> simp

theorem interpretLines_state (origin : List Char) (s : ParserState) (line : List Char)
    (rest : List (List Char)) :
    (interpretLines origin s (line :: rest)).1 =
      (interpretLines origin (stepLine origin s line).1 rest).1 := by
  simp [interpretLines]

theorem interpretLines_lastEventID (origin : List Char) (lines : List (List Char)) :
    ∀ s : ParserState, PendingIdNulFree s →
      ((interpretLines origin s lines).1.lastEventID = s.lastEventID ∨
        ((interpretLines origin s lines).1.lastEventID ≠ [] ∧
          nulChar ∉ (interpretLines origin s lines).1.lastEventID)) := by
  induction lines with
  | nil =>
    intro s _
    left
    rfl
  | cons line rest ih =>
    intro s hs
    have hs' : PendingIdNulFree (stepLine origin s line).1 :=
      stepLine_pendingIdNulFree origin s line hs
    have hr := ih (stepLine origin s line).1 hs'
    rw [interpretLines_state]
    rcases hr with hr | hr
    · rw [hr]
      rcases stepLine_lastEventID_cases origin s line with h1 | ⟨v, hv, hvne, hvl, _, _⟩
      · left
        exact h1
      · right
        rw [hvl]
        exact ⟨hvne, hs v hv⟩
    · right
      exact hr

/-! ## Dispatcher lemmas -/

theorem lookupListeners_map_remove {L : Type} [DecidableEq L]
    (entries : List (List Char × List L)) (ty : List Char) (l : L) :
    lookupListeners
        (entries.map (fun e => if e.1 = ty then (e.1, e.2.filter (fun x => decide (x ≠ l))) else e))
        ty
      = (lookupListeners entries ty).filter (fun x => decide (x ≠ l)) := by
  induction entries with
  | nil => rfl
  | cons e rest ih =>
    by_cases he : e.1 = ty
    · simp [lookupListeners, he]
    · simp only [List.map_cons, if_neg he, lookupListeners]
      exact ih

theorem lookupListeners_map_other {L : Type} [DecidableEq L]
    (entries : List (List Char × List L)) {ty ty' : List Char} (l : L) (hne : ty' ≠ ty) :
    lookupListeners
        (entries.map (fun e => if e.1 = ty then (e.1, e.2.filter (fun x => decide (x ≠ l))) else e))
        ty'
      = lookupListeners entries ty' := by
  induction entries with
  | nil => rfl
  | cons e rest ih =>
    by_cases he : e.1 = ty
    · have h2 : ¬ e.1 = ty' := by
        rw [he]
        exact Ne.symm hne
      simp only [List.map_cons, if_pos he, lookupListeners]
      rw [if_neg (by simpa [he] using h2), if_neg h2]
      exact ih
    · simp only [List.map_cons, if_neg he, lookupListeners]
      by_cases h2 : e.1 = ty'
      · rw [if_pos h2, if_pos h2]
      · rw [if_neg h2, if_neg h2]
        exact ih

theorem lookupListeners_append_singleton {L : Type} (entries : List (List Char × List L))
    (ty : List Char) (v : List L) (h : ∀ e ∈ entries, e.1 ≠ ty) :
    lookupListeners (entries ++ [(ty, v)]) ty = v := by
  induction entries with
  | nil => simp [lookupListeners]
  | cons e rest ih =>
    have h1 := h e (by simp)
    simp only [List.cons_append, lookupListeners, if_neg h1]
    exact ih (fun x hx => h x (by simp [hx]))

theorem lookupListeners_append_other {L : Type} (entries : List (List Char × List L))
    {ty ty' : List Char} (v : List L) (hne : ty' ≠ ty) :
    lookupListeners (entries ++ [(ty, v)]) ty' = lookupListeners entries ty' := by
  induction entries with
  | nil => simp [lookupListeners, Ne.symm hne]
  | cons e rest ih =>
    by_cases h2 : e.1 = ty' <;> simp [lookupListeners, h2, ih]

theorem lookupListeners_eq_nil_of_absent {L : Type} (entries : List (List Char × List L))
    (ty : List Char) (h : ∀ e ∈ entries, e.1 ≠ ty) :
    lookupListeners entries ty = [] := by
  induction entries with
  | nil => rfl
  | cons e rest ih =>
    have h1 := h e (by simp)
    simp only [lookupListeners, if_neg h1]
    exact ih (fun x hx => h x (by simp [hx]))

/-! ## Claims -/

/-- C1: feeding the stream data:msg LF data:msg LF LF data: LF LF data:end LF
LF through one connection tokenizer and parser produces exactly three message
records, in this order, with data values msg LF msg, empty and end:
consecutive data fields are joined with an embedded newline and exactly one
synthetic trailing newline is stripped at the boundary, a data field with
empty value still yields a record with empty data, and a boundary whose data
accumulator is fully absent emits nothing. -/
theorem claimC1_end_to_end :
    (runConnection [strBytes "data:msg\ndata:msg\n\ndata:\n\ndata:end\n\n"] [] initState).2 =
      [mkMessageEvent [] (chars "msg\nmsg") [] [],
       mkMessageEvent [] (chars "") [] [],
       mkMessageEvent [] (chars "end") [] []] ∧
    (runConnection [strBytes "event:e\n\n"] [] initState).2 = [] := by
  constructor <;> decide

/-- C2 counterexample: chunk-boundary invariance fails for a stream holding a
NUL byte: the bytes of the text a NUL b LF tokenize to one line when fed as a
single chunk but to two lines when split after the b, although both chunkings
concatenate to the same byte sequence. -/
theorem claimC2_counterexample :
    ([[97, 0, 98, 10]] : List (List Nat)).flatten = ([[97, 0, 98], [10]] : List (List Nat)).flatten ∧
    (readerToLines [[97, 0, 98, 10]]).map utf8Decode ≠
      (readerToLines [[97, 0, 98], [10]]).map utf8Decode := by
  constructor <;> decide

/-- C2 amended: for every NUL-free line-delimited byte stream, tokenizing it
split into chunks at any set of byte offsets yields the identical sequence of
decoded logical lines; in particular a split in the middle of a line or of a
multi-byte UTF-8 code point changes nothing, and no line is duplicated or
lost. -/
theorem claimC2_chunk_invariance {c1 c2 : List (List Nat)}
    (hjoin : c1.flatten = c2.flatten) (hnul : NulFree c1.flatten) :
    (readerToLines c1).map utf8Decode = (readerToLines c2).map utf8Decode := by
  rw [readerToLines_eq_splitTerm hnul, readerToLines_eq_splitTerm (hjoin ▸ hnul), hjoin]

/-- C2 witness: the two-byte UTF-8 encoding of e-acute split across two
chunks yields the same decoded line as the unsplit chunking. -/
theorem claimC2_witness :
    ([[0xC3, 0xA9, 10]] : List (List Nat)).flatten =
        ([[0xC3], [0xA9, 10]] : List (List Nat)).flatten ∧
    NulFree ([[0xC3, 0xA9, 10]] : List (List Nat)).flatten ∧
    (readerToLines [[0xC3, 0xA9, 10]]).map utf8Decode =
        (readerToLines [[0xC3], [0xA9, 10]]).map utf8Decode ∧
    (readerToLines [[0xC3, 0xA9, 10]]).map utf8Decode = [[Char.ofNat 0xE9]] :=
  ⟨by decide, by decide, claimC2_chunk_invariance (by decide) (by decide), by decide⟩

/-- C3 counterexample: the scanning loop also ends a line at a NUL byte, so
lines do not end only at LF and CR: on the single-chunk stream a NUL b LF the
tokenizer yields the single line a, not the line a NUL b that ending lines
only at LF and CR would produce. -/
theorem claimC3_counterexample :
    readerToLines [[97, 0, 98, 10]] = [[97]] ∧
    ([[97]] : List (List Nat)) ≠ [[97, 0, 98]] := by
  constructor <;> decide

/-- C3 amended: on NUL-free streams the tokenizer ends a line exactly at each
LF or CR byte and nowhere else, scanning each terminator independently (so CR
immediately followed by LF yields an empty line between the two boundaries),
keeps the bytes after the last terminator of a chunk as leftover prepended to
the next chunk, and discards any remaining leftover at stream end; a NUL byte
additionally ends a line and stops the scan of the current chunk without
advancing the cut point. -/
theorem claimC3_terminator_lines :
    (∀ chunks : List (List Nat), NulFree chunks.flatten →
      readerToLines chunks = (splitTerm chunks.flatten).dropLast) ∧
    readerToLines [strBytes "a\r\nb\nc"] = [strBytes "a", [], strBytes "b"] := by
  exact ⟨fun chunks h => readerToLines_eq_splitTerm h, by decide⟩

/-- C3 witness: the characterization applied to a concrete two-chunk stream
whose first chunk ends in the middle of a line. -/
theorem claimC3_witness :
    NulFree ([strBytes "a\rb", strBytes "c\n"] : List (List Nat)).flatten ∧
    readerToLines [strBytes "a\rb", strBytes "c\n"] =
      (splitTerm ([strBytes "a\rb", strBytes "c\n"] : List (List Nat)).flatten).dropLast ∧
    readerToLines [strBytes "a\rb", strBytes "c\n"] = [strBytes "a", strBytes "bc"] :=
  ⟨by decide, claimC3_terminator_lines.1 [strBytes "a\rb", strBytes "c\n"] (by decide), by decide⟩

/-- C4: the deferred dispatch task of a parsed message record checks the
connection state first; once the abort task of close has completed, the state
is CLOSED, so the record is silently dropped and reaches no subscriber
callback, whatever listeners are installed. -/
theorem claimC4_post_close_suppression {L : Type} (ctrl : CtrlState) (reason : ErrReason)
    (tg : SourceListeners L) (m : MessageRec) :
    queuedMessageTask (abortTask ctrl reason).1.readyState tg m = [] := by
  simp [queuedMessageTask, abortTask]

/-- C5 counterexample: not every lifecycle signal is a no-op after CLOSED: a
scheduled open announcement that runs once the state is CLOSED leaves the
state unchanged but still dispatches an Open event, which reaches an
installed open handler. -/
theorem claimC5_counterexample :
    (announceConnection { readyState := ReadyState.CLOSED, aborted := true }).2 =
      [EventRecord.openEv] ∧
    ([EventRecord.openEv] : List EventRecord) ≠ [] ∧
    dispatchEventSrc
        { onopen := some 0, onerror := none, onmessage := none,
          openTarget := EventTarget.empty Nat, errorTarget := EventTarget.empty Nat,
          messageTarget := EventTarget.empty Nat }
        EventRecord.openEv = [0] := by
  refine ⟨rfl, by decide, rfl⟩

/-- C5 amended: once the ready state is CLOSED no controller step changes it
again: the open announcement, the abort task, the reconnect announcement and
the reconnect attempt all leave the state CLOSED; a repeated close dispatches
no further Error notification beyond re-triggering the already-triggered
abort controller, the reconnect announcement dispatches nothing, and no
reconnect attempt invokes connect; the open announcement however still
dispatches an Open event. -/
theorem claimC5_closed_terminal (s : CtrlState) (reason : ErrReason)
    (h : s.readyState = ReadyState.CLOSED) :
    (announceConnection s).1.readyState = ReadyState.CLOSED ∧
    (abortTask s reason).1.readyState = ReadyState.CLOSED ∧
    (abortTask s reason).1.aborted = true ∧
    (abortTask s reason).2 = [] ∧
    (reconnectAnnouncement s).1 = s ∧
    (reconnectAnnouncement s).2.1 = [] ∧
    reconnectAttemptTask s = false ∧
    (announceConnection s).2 = [EventRecord.openEv] := by
  refine ⟨?_, ?_, ?_, ?_, ?_, ?_, ?_, ?_⟩ <;>
    simp [announceConnection, abortTask, reconnectAnnouncement, reconnectAttemptTask, h]

/-- C5 witness: the terminal-state conjunction evaluated at the closed
controller state with the default close reason. -/
theorem claimC5_witness :
    (announceConnection { readyState := ReadyState.CLOSED, aborted := true }).1.readyState =
        ReadyState.CLOSED ∧
    (abortTask { readyState := ReadyState.CLOSED, aborted := true }
        ErrReason.connectionClosed).1.readyState = ReadyState.CLOSED ∧
    (abortTask { readyState := ReadyState.CLOSED, aborted := true }
        ErrReason.connectionClosed).1.aborted = true ∧
    (abortTask { readyState := ReadyState.CLOSED, aborted := true }
        ErrReason.connectionClosed).2 = [] ∧
    (reconnectAnnouncement { readyState := ReadyState.CLOSED, aborted := true }).1 =
        { readyState := ReadyState.CLOSED, aborted := true } ∧
    (reconnectAnnouncement { readyState := ReadyState.CLOSED, aborted := true }).2.1 = [] ∧
    reconnectAttemptTask { readyState := ReadyState.CLOSED, aborted := true } = false ∧
    (announceConnection { readyState := ReadyState.CLOSED, aborted := true }).2 =
        [EventRecord.openEv] :=
  claimC5_closed_terminal { readyState := ReadyState.CLOSED, aborted := true }
    ErrReason.connectionClosed rfl

/-- C6: a response with HTTP status 204 drives the session directly to
CLOSED, dispatches exactly one Error notification although the abort path is
entered twice (once inside validation, once in the catch of connect), and
the reconnect path is never reached, so zero reconnection attempts follow. -/
theorem claimC6_terminal_204 (s : CtrlState) (r : Resp)
    (hs : s.readyState = ReadyState.CONNETING) (h204 : r.status = 204) :
    (connectStep s r).state.readyState = ReadyState.CLOSED ∧
    (connectStep s r).events.length = 1 ∧
    (connectStep s r).events = [EventRecord.errorEv ErrReason.connectionClosed] ∧
    (connectStep s r).state.aborted = true ∧
    (connectStep s r).reconnectReached = false := by
  simp [connectStep, rejectInvalidResponse, h204, abortTask, hs]

/-- C6 witness: the 204 outcome evaluated at a fresh connecting state and a
concrete 204 response. -/
theorem claimC6_witness :
    (connectStep { readyState := ReadyState.CONNETING, aborted := false }
        { status := 204, statusText := chars "No Content", ok := true, contentType := none }).state.readyState =
        ReadyState.CLOSED ∧
    (connectStep { readyState := ReadyState.CONNETING, aborted := false }
        { status := 204, statusText := chars "No Content", ok := true, contentType := none }).events.length = 1 ∧
    (connectStep { readyState := ReadyState.CONNETING, aborted := false }
        { status := 204, statusText := chars "No Content", ok := true, contentType := none }).events =
        [EventRecord.errorEv ErrReason.connectionClosed] ∧
    (connectStep { readyState := ReadyState.CONNETING, aborted := false }
        { status := 204, statusText := chars "No Content", ok := true, contentType := none }).state.aborted = true ∧
    (connectStep { readyState := ReadyState.CONNETING, aborted := false }
        { status := 204, statusText := chars "No Content", ok := true, contentType := none }).reconnectReached = false :=
  claimC6_terminal_204 { readyState := ReadyState.CONNETING, aborted := false }
    { status := 204, statusText := chars "No Content", ok := true, contentType := none } rfl rfl

/-- C7 counterexample: the pending event id is never reset at a boundary, so
the sticky lastEventID can change at the completion of an event that carried
no id field of its own: after the block id:abc, blank (suppressed for empty
data, sticky value still empty) the block data:x, blank completes an event
containing only a data field yet moves the sticky value to abc. -/
theorem claimC7_counterexample :
    (interpretLines [] initState [chars "id:abc", []]).1.lastEventID = [] ∧
    (interpretLines []
        (interpretLines [] initState [chars "id:abc", []]).1
        [chars "data:x", []]).1.lastEventID = chars "abc" ∧
    classifyLine (chars "data:x") = LineAction.fieldLine (chars "data") (chars "x") ∧
    classifyLine [] = LineAction.boundary := by
  refine ⟨by decide, by decide, by decide, by decide⟩

/-- C7 amended: the sticky lastEventID starts empty and is never cleared back
to empty; whenever a line changes it, that line is a boundary of an event
with non-empty accumulated data and the new value is the current pending id,
which is non-empty and NUL-free — but the pending id persists across event
boundaries, so it may stem from an id field of an earlier (even suppressed)
event rather than of the completing one; an id value containing a NUL leaves
the pending id and the sticky value unchanged while the remaining fields of
the event still parse normally. -/
theorem claimC7_sticky_last_event_id :
    initState.lastEventID = [] ∧
    initState.eventID = none ∧
    (∀ origin lines (s : ParserState), PendingIdNulFree s →
      ((interpretLines origin s lines).1.lastEventID = s.lastEventID ∨
        ((interpretLines origin s lines).1.lastEventID ≠ [] ∧
          nulChar ∉ (interpretLines origin s lines).1.lastEventID))) ∧
    (∀ origin (s : ParserState) line,
      (stepLine origin s line).1.lastEventID ≠ s.lastEventID →
        line = [] ∧ s.data ≠ [] ∧
          ∃ v, s.eventID = some v ∧ v ≠ [] ∧ (stepLine origin s line).1.lastEventID = v) ∧
    (∀ origin (s : ParserState), stepLine origin s (chars "id:abc\x00def") = (s, none)) := by
  refine ⟨rfl, rfl, ?_, ?_, ?_⟩
  · intro origin lines s hs
    exact interpretLines_lastEventID origin lines s hs
  · intro origin s line hne
    rcases stepLine_lastEventID_cases origin s line with h | ⟨v, hv, hvne, hvl, hl, hd⟩
    · exact absurd h hne
    · exact ⟨hl, hd, v, hv, hvne, hvl⟩
  · intro origin s
    have hcl : classifyLine (chars "id:abc\x00def") =
        LineAction.fieldLine (chars "id") (chars "abc\x00def") := by decide
    show stepLine origin s (chars "id:abc\x00def") = (s, none)
    unfold stepLine
    rw [hcl]
    show (handleField s (chars "id") (chars "abc\x00def"), none) = (s, none)
    unfold handleField
    rw [if_neg (by decide), if_neg (by decide), if_pos (by decide), if_pos (by decide)]

/-- C7 witness: the sticky-value disjunction applied to the NUL-guarded id
scenario from a fresh state: the line id:abc NUL def followed by data and a
boundary leaves the sticky value empty. -/
theorem claimC7_witness :
    PendingIdNulFree initState ∧
    ((interpretLines [] initState [chars "id:abc\x00def", chars "data:x", []]).1.lastEventID =
        initState.lastEventID ∨
      ((interpretLines [] initState [chars "id:abc\x00def", chars "data:x", []]).1.lastEventID ≠ [] ∧
        nulChar ∉ (interpretLines [] initState [chars "id:abc\x00def", chars "data:x", []]).1.lastEventID)) ∧
    stepLine [] initState (chars "id:abc\x00def") = (initState, none) :=
  ⟨(by intro v hv; cases hv),
   claimC7_sticky_last_event_id.2.2.1 [] [chars "id:abc\x00def", chars "data:x", []] initState
     (by intro v hv; cases hv),
   claimC7_sticky_last_event_id.2.2.2.2 [] initState⟩

/-- C8 counterexample: the backoff is computed in binary64 arithmetic, where
dividing by 1000 and multiplying by 1000 both round, so the delay is not
exactly the reconnection delay for every value: a reachable retry:1001 line
stores the double 1001 (mantissa 8804889115230208 at scale minus 43), yet
the computed backoff is one unit in the last place below it (mantissa
8804889115230207 at the same scale, the value 1000.9999999999999). -/
theorem claimC8_counterexample :
    retryValue (chars "retry:1001") = some (JsNumber.finite 8804889115230208 (-43)) ∧
    jsOfNat 1001 = JsNumber.finite 8804889115230208 (-43) ∧
    reconnectBackoff (JsNumber.finite 8804889115230208 (-43)) =
      JsNumber.finite 8804889115230207 (-43) ∧
    JsNumber.finite 8804889115230207 (-43) ≠ JsNumber.finite 8804889115230208 (-43) := by
  refine ⟨by decide, by decide, by decide, by decide⟩

/-- C8 amended: the computed backoff equals the reconnection delay divided by
1000, raised to the backoff exponent, times 1000, each step in binary64
arithmetic; the exponent is fixed at one and never incremented, and Math.pow
with exponent one returns its base, so the backoff depends on nothing but the
current reconnection delay — but the two rounding steps mean it is not
exactly that delay for every value (retry:1001 waits one ulp less), though it
is exact for the default 1000 and for values such as 500; the delay starts as
the double 1000 and is changed by exactly the lines carrying a valid
all-digit retry field, whose parseInt value is itself rounded to the nearest
double. -/
theorem claimC8_backoff :
    backoffCounter = 1 ∧
    (∀ x : JsNumber, powBackoffCounter x = x) ∧
    (∀ t : JsNumber, reconnectBackoff t = jsAbs (mulBy1000 (divBy1000 t))) ∧
    initState.reconnectionTime = jsOfNat 1000 ∧
    reconnectBackoff (jsOfNat 1000) = jsOfNat 1000 ∧
    reconnectBackoff (jsOfNat 500) = jsOfNat 500 ∧
    (∀ origin (s : ParserState) line,
      (stepLine origin s line).1.reconnectionTime = (retryValue line).getD s.reconnectionTime) := by
  refine ⟨rfl, fun x => rfl, fun t => rfl, rfl, by decide, by decide, stepLine_reconnectionTime⟩

/-- C9 counterexample: removeEventListener does not remove only the first
match: after registering the same handler twice under one type and removing
it once, no registration remains, so dispatch invokes nothing instead of the
one remaining registration the claim predicts. -/
theorem claimC9_counterexample :
    ((((EventTarget.empty Nat).addEventListener (chars "message") 0).addEventListener
          (chars "message") 0).removeEventListener (chars "message") 0).dispatchInvocations
        (chars "message") = [] ∧
    ([] : List Nat) ≠ [0] := by
  constructor <;> decide

/-- C9 amended: removeEventListener removes every (identity-)equal match from
the listener list of the given type, keeping the other listeners of that type
in their relative order, and leaves the listener lists of every other type
unchanged. -/
theorem claimC9_remove_listener {L : Type} [DecidableEq L] (t : EventTarget L)
    (ty ty' : List Char) (l : L) (hne : ty' ≠ ty) :
    (t.removeEventListener ty l).getListeners ty =
        (t.getListeners ty).filter (fun x => decide (x ≠ l)) ∧
    (t.removeEventListener ty l).getListeners ty' = t.getListeners ty' := by
  unfold EventTarget.removeEventListener EventTarget.getListeners
  by_cases ha : t.listeners.any (fun e => decide (e.1 = ty))
  · rw [if_pos ha]
    exact ⟨lookupListeners_map_remove _ _ _, lookupListeners_map_other _ _ hne⟩
  · rw [if_neg ha]
    have hnone : ∀ e ∈ t.listeners, e.1 ≠ ty := by
      intro e he heq
      exact ha (List.any_eq_true.mpr ⟨e, he, by simpa using heq⟩)
    refine ⟨?_, lookupListeners_append_other _ _ hne⟩
    rw [lookupListeners_append_singleton _ _ _ hnone,
      lookupListeners_eq_nil_of_absent _ _ hnone]
    rfl

/-- C9 witness: the removal characterization evaluated on a registry holding
the listener 0 twice among others, for the removed type a and the untouched
type b. -/
theorem claimC9_witness :
    chars "b" ≠ chars "a" ∧
    ((EventTarget.mk [(chars "a", [0, 1, 0]), (chars "b", [2])] : EventTarget Nat).removeEventListener
          (chars "a") 0).getListeners (chars "a") =
        (((EventTarget.mk [(chars "a", [0, 1, 0]), (chars "b", [2])] : EventTarget Nat).getListeners
            (chars "a")).filter (fun x => decide (x ≠ 0))) ∧
    ((EventTarget.mk [(chars "a", [0, 1, 0]), (chars "b", [2])] : EventTarget Nat).removeEventListener
          (chars "a") 0).getListeners (chars "b") =
        (EventTarget.mk [(chars "a", [0, 1, 0]), (chars "b", [2])] : EventTarget Nat).getListeners
          (chars "b") :=
  ⟨by decide,
   (claimC9_remove_listener (EventTarget.mk [(chars "a", [0, 1, 0]), (chars "b", [2])])
     (chars "a") (chars "b") 0 (by decide)).1,
   (claimC9_remove_listener (EventTarget.mk [(chars "a", [0, 1, 0]), (chars "b", [2])])
     (chars "a") (chars "b") 0 (by decide)).2⟩

/-- C10: the default onmessage slot is invoked for every dispatched message
record regardless of the record type name, because dispatch routes on the
record variant, not on the type name; the invocations are exactly the
onmessage slot followed by the listeners registered under the record type
name, so listeners for a custom type fire in addition to onmessage. -/
theorem claimC10_onmessage_all_types {L : Type} (tg : SourceListeners L) (m : MessageRec)
    (h : L) (hm : tg.onmessage = some h) :
    dispatchEventSrc tg (EventRecord.messageEv m) =
      h :: tg.messageTarget.dispatchInvocations m.type := by
  simp [dispatchEventSrc, hm]

/-- C10 witness: a message record of custom type foo invokes the onmessage
slot first and then the listener registered under foo. -/
theorem claimC10_witness :
    dispatchEventSrc
        { onopen := none, onerror := none, onmessage := some 0,
          openTarget := EventTarget.empty Nat, errorTarget := EventTarget.empty Nat,
          messageTarget := EventTarget.mk [(chars "foo", [1])] }
        (EventRecord.messageEv (mkMessageEvent (chars "foo") (chars "hi") [] [])) = [0, 1] := by
  rw [claimC10_onmessage_all_types _ (mkMessageEvent (chars "foo") (chars "hi") [] []) 0 rfl]
  decide

end EventSourceSpec
